import Mathlib

/-!
Shallow embedding of the storage layer of a small disk-resident database,
translated from the Rust sources `src/storage/page.rs`,
`src/storage/block_id.rs` and `src/storage/file_manager.rs`, together with
theorems settling the specification claims about it.

Bytes are modelled as `Nat` values (the Rust `u8` type guarantees values
below 256 at every call site; theorems that quantify over arbitrary buffers
carry that bound as a hypothesis).  `usize`/`u64` arithmetic is modelled on
`Nat` with an explicit `% 2^64` exactly where overflow is reachable.
-/

namespace Db

/-- Width of `usize`/`u64` on the target platform: 64 bits. -/
def USIZE : Nat := 2 ^ 64

/-- Embedding of `i32::from_be_bytes`: decode four big-endian bytes as a
two's-complement 32-bit signed integer. -/
def i32FromBeBytes (b0 b1 b2 b3 : Nat) : Int :=
  let n : Nat := b0 * 2 ^ 24 + b1 * 2 ^ 16 + b2 * 2 ^ 8 + b3
  if n < 2 ^ 31 then (n : Int) else (n : Int) - 2 ^ 32

/-- Embedding of `i32::to_be_bytes`: the 4-byte big-endian two's-complement
encoding of a 32-bit signed integer. -/
def i32ToBeBytes (v : Int) : List Nat :=
  let n : Nat := (v % (2 ^ 32 : Int)).toNat
  [n / 2 ^ 24 % 256, n / 2 ^ 16 % 256, n / 2 ^ 8 % 256, n % 256]

/-- Embedding of the Rust cast `usize as i32` (wrapping), used by
`Page::write_str` for the length prefix. -/
def i32OfNat (n : Nat) : Int :=
  let m : Nat := n % 2 ^ 32
  if m < 2 ^ 31 then (m : Int) else (m : Int) - 2 ^ 32

/-- Embedding of `Page` from `src/storage/page.rs`: a private byte buffer
(`bytebuffer: Vec<u8>`) and the current read/write position (`pos: usize`). -/
structure Page where
  bytebuffer : List Nat
  pos : Nat
deriving Repr, DecidableEq

/-- Embedding of `Page::new(capacity)`: `Vec::with_capacity` only reserves
storage, so the logical buffer starts empty and the cursor at 0; the capacity
argument has no observable effect. -/
def Page.new (_capacity : Nat) : Page :=
  { bytebuffer := [], pos := 0 }

/-- Embedding of `Page::write_byte`: overwrite in place when `pos` lies within
the current length, otherwise push at the end; always advance `pos` by 1. -/
def Page.write_byte (p : Page) (value : Nat) : Page :=
  if p.pos < p.bytebuffer.length then
    { bytebuffer := p.bytebuffer.set p.pos value, pos := p.pos + 1 }
  else
    { bytebuffer := p.bytebuffer ++ [value], pos := p.pos + 1 }

/-- Embedding of `Page::write_bytes`: apply `write_byte` to each byte in
order. -/
def Page.write_bytes (p : Page) (bytes : List Nat) : Page :=
  bytes.foldl Page.write_byte p

/-- Embedding of `Page::write_int`: write the 4-byte big-endian encoding of
`value`. -/
def Page.write_int (p : Page) (value : Int) : Page :=
  p.write_bytes (i32ToBeBytes value)

/-- Embedding of `Page::write_str`: write the byte length of the string
(cast `usize as i32`) followed by its UTF-8 bytes.  Strings are represented
by their UTF-8 byte sequences. -/
def Page.write_str (p : Page) (s : List Nat) : Page :=
  (p.write_int (i32OfNat s.length)).write_bytes s

/-- Embedding of `Page::flip`: reset the position to 0, buffer unchanged. -/
def Page.flip (p : Page) : Page :=
  { p with pos := 0 }

/-- Embedding of `Page::read_int`: if fewer than 4 bytes remain return
`none`, otherwise decode 4 big-endian bytes and advance by 4. -/
def Page.read_int (p : Page) : Option (Int × Page) :=
  if p.pos + 4 > p.bytebuffer.length then
    Option.none
  else
    Option.some
      (i32FromBeBytes (p.bytebuffer.getD p.pos 0) (p.bytebuffer.getD (p.pos + 1) 0)
        (p.bytebuffer.getD (p.pos + 2) 0) (p.bytebuffer.getD (p.pos + 3) 0),
        { p with pos := p.pos + 4 })

/-- Embedding of `Page::read_byte`: if the position is at or past the end
return `none`, otherwise return the byte and advance by 1. -/
def Page.read_byte (p : Page) : Option (Nat × Page) :=
  if p.pos ≥ p.bytebuffer.length then
    Option.none
  else
    Option.some (p.bytebuffer.getD p.pos 0, { p with pos := p.pos + 1 })

/-- Whether `b` is a UTF-8 continuation byte (`0x80 ..= 0xBF`). -/
def isCont (b : Nat) : Bool :=
  0x80 ≤ b && b ≤ 0xBF

/-- Embedding of the validity check performed by `std::str::from_utf8`:
a byte sequence is accepted exactly when it is well-formed UTF-8 (no
overlong forms, no surrogates, no code points above U+10FFFF). -/
def validUtf8 : List Nat → Bool
  | [] => true
  | b :: rest =>
    if b ≤ 0x7F then
      validUtf8 rest
    else if 0xC2 ≤ b && b ≤ 0xDF then
      match rest with
      | c1 :: rest2 => isCont c1 && validUtf8 rest2
      | _ => false
    else if b = 0xE0 then
      match rest with
      | c1 :: c2 :: rest3 => (0xA0 ≤ c1 && c1 ≤ 0xBF) && isCont c2 && validUtf8 rest3
      | _ => false
    else if (0xE1 ≤ b && b ≤ 0xEC) || b = 0xEE || b = 0xEF then
      match rest with
      | c1 :: c2 :: rest3 => isCont c1 && isCont c2 && validUtf8 rest3
      | _ => false
    else if b = 0xED then
      match rest with
      | c1 :: c2 :: rest3 => (0x80 ≤ c1 && c1 ≤ 0x9F) && isCont c2 && validUtf8 rest3
      | _ => false
    else if b = 0xF0 then
      match rest with
      | c1 :: c2 :: c3 :: rest4 =>
        (0x90 ≤ c1 && c1 ≤ 0xBF) && isCont c2 && isCont c3 && validUtf8 rest4
      | _ => false
    else if 0xF1 ≤ b && b ≤ 0xF3 then
      match rest with
      | c1 :: c2 :: c3 :: rest4 =>
        isCont c1 && isCont c2 && isCont c3 && validUtf8 rest4
      | _ => false
    else if b = 0xF4 then
      match rest with
      | c1 :: c2 :: c3 :: rest4 =>
        (0x80 ≤ c1 && c1 ≤ 0x8F) && isCont c2 && isCont c3 && validUtf8 rest4
      | _ => false
    else
      false

/-- Possible outcomes of `Page::read_str`.  The Rust function returns
`Option<String>`, so the caller observes only `ok` (a string) or `none`
("no value"); `panic` records the executions in which the function does not
return at all (a `usize` overflow panic in debug builds, an inverted-slice
panic in release builds — both arise from the same states). -/
inductive ReadStrResult where
  | ok : List Nat → Page → ReadStrResult
  | none : Page → ReadStrResult
  | panic : ReadStrResult
deriving Repr, DecidableEq

/-- Embedding of `Page::read_str`: read a length via `read_int`, cast it
`as usize` (wrapping), check availability, slice and validate UTF-8.
A UTF-8 failure is converted by `.ok()` into the very same `None` the
length/availability checks produce.  When `pos + len` exceeds `usize`, the
Rust code panics: overflow of the addition in debug builds; in release
builds the sum wraps to a value below `pos` (the wrapped sum is `pos - (2^64
- len) < pos ≤ buffer length`), the availability test therefore passes, and
the slice `buffer[pos .. wrapped]` has its start beyond its end, which
panics. -/
def Page.read_str (p : Page) : ReadStrResult :=
  match p.read_int with
  | Option.none => ReadStrResult.none p
  | Option.some (v, p1) =>
    let len : Nat := (v % (USIZE : Int)).toNat
    if p1.pos + len ≥ USIZE then
      ReadStrResult.panic
    else if p1.pos + len > p1.bytebuffer.length then
      ReadStrResult.none p1
    else
      let slice := (p1.bytebuffer.drop p1.pos).take len
      let p2 : Page := { p1 with pos := p1.pos + len }
      if validUtf8 slice then ReadStrResult.ok slice p2 else ReadStrResult.none p2

/-- Embedding of `BlockId` from `src/storage/file_manager.rs`: a file name
and a zero-based block number (`u32`; every constructed value is below
`2^32`). -/
structure BlockId where
  filename : String
  number : Nat
deriving Repr, DecidableEq

/-- Embedding of `BlockId::new`. -/
def BlockId.new (filename : String) (number : Nat) : BlockId :=
  { filename := filename, number := number }

/-- A file of the underlying file system: its length in bytes and its
contents (`data i` is the byte at offset `i`, meaningful for `i < size`). -/
structure File where
  size : Nat
  data : Nat → Nat

/-- The empty file, as produced by creating a fresh file. -/
def File.empty : File :=
  { size := 0, data := fun _ => 0 }

/-- The file-system state: the files under the manager's root directory,
keyed by the name the caller passes (every operation resolves names by the
same `db_directory.join(name)` rule, so keying by the relative name is
equivalent). -/
def FS : Type := String → Option File

/-- Update one file of the file system. -/
def updateFS (fs : FS) (name : String) (file : File) : FS :=
  fun g => if g = name then Option.some file else fs g

/-- Embedding of `FileManager`: the root directory and the fixed block size.
The `Mutex<()>` field only serializes the three operations between threads;
it has no effect on the sequential semantics modelled here. -/
structure FileManager where
  db_directory : String
  block_size : Nat

/-- Embedding of `FileManager::new`. -/
def FileManager.new (db_directory : String) (block_size : Nat) : FileManager :=
  { db_directory := db_directory, block_size := block_size }

/-- Errors surfaced by the file manager: `File::open`/`OpenOptions::open` on
a missing file, and the explicit `UnexpectedEof` ("Could not read full
block") raised when fewer than `block_size` bytes come back. -/
inductive IoErr where
  | notFound
  | unexpectedEof
deriving Repr, DecidableEq

/-- Embedding of `FileManager::read`: open the file (error when absent),
seek to `block_size * block.number` (a `u64` product, hence the `% 2^64`),
read into a `block_size` buffer — the file yields
`min block_size (size - offset)` bytes — and error with `UnexpectedEof`
unless exactly `block_size` bytes arrived; on success feed the buffer to
`page.write_bytes` (the code writes at the page's current cursor; it does
not clear the page or reset the cursor). -/
def FileManager.read (fm : FileManager) (fs : FS) (block : BlockId) (page : Page) :
    Except IoErr Page :=
  match fs block.filename with
  | Option.none => Except.error IoErr.notFound
  | Option.some file =>
    let offset : Nat := fm.block_size * block.number % USIZE
    let n : Nat := min fm.block_size (file.size - offset)
    if n ≠ fm.block_size then
      Except.error IoErr.unexpectedEof
    else
      Except.ok (page.write_bytes ((List.range fm.block_size).map fun i => file.data (offset + i)))

/-- Embedding of `FileManager::write`: open the existing file for writing
(error when absent — `create` is not set), seek to the same offset, and
issue one `file.write(&page.bytebuffer)`.  The operating system may write
fewer bytes than requested; `osWritten` is that environment-chosen count
(clamped to the request).  The code discards the returned count, so the call
succeeds regardless of truncation.  Writing past the end of the file
extends it, zero-filling any gap between the old end and the offset. -/
def FileManager.write (fm : FileManager) (fs : FS) (block : BlockId) (page : Page)
    (osWritten : Nat) : Except IoErr FS :=
  match fs block.filename with
  | Option.none => Except.error IoErr.notFound
  | Option.some file =>
    let offset : Nat := fm.block_size * block.number % USIZE
    let n : Nat := min osWritten page.bytebuffer.length
    let newFile : File :=
      { size := max file.size (offset + n)
        data := fun i =>
          if offset ≤ i ∧ i < offset + n then page.bytebuffer.getD (i - offset) 0
          else if i < file.size then file.data i
          else 0 }
    Except.ok (updateFS fs block.filename newFile)

/-- Embedding of `FileManager::append`: open read+write with `create`
(absent files start empty), take the current length, compute
`(file_len / block_size) as u32` — note the truncating `u32` cast — extend
the length by `block_size` via `set_len` (a `u64` addition, hence the
`% 2^64`; `set_len` zero-fills the added region), and return the new
block's identifier.  (Rust's `/` panics when `block_size = 0`; the manager
is always constructed with a positive block size and every theorem below
assumes it, so Lean's `/ 0 = 0` convention is never exercised.) -/
def FileManager.append (fm : FileManager) (fs : FS) (filename : String) :
    BlockId × FS :=
  let file : File := (fs filename).getD File.empty
  let file_len : Nat := file.size
  let block_number : Nat := file_len / fm.block_size % 2 ^ 32
  let new_len : Nat := (file_len + fm.block_size) % USIZE
  let file2 : File :=
    { size := new_len
      data := fun i => if i < file.size then file.data i else 0 }
  ({ filename := filename, number := block_number }, updateFS fs filename file2)

/-- The Page operations, reified for statements that quantify over every
sequence of calls. -/
inductive Op where
  | write_byte : Nat → Op
  | write_bytes : List Nat → Op
  | write_int : Int → Op
  | write_str : List Nat → Op
  | flip : Op
  | read_byte : Op
  | read_int : Op
  | read_str : Op

/-- Run one operation on a page; `Option.none` marks the panicking
execution of `read_str` (the program aborts, leaving no next state). -/
def stepOp (p : Page) : Op → Option Page
  | Op.write_byte b => Option.some (p.write_byte b)
  | Op.write_bytes bs => Option.some (p.write_bytes bs)
  | Op.write_int v => Option.some (p.write_int v)
  | Op.write_str s => Option.some (p.write_str s)
  | Op.flip => Option.some p.flip
  | Op.read_byte =>
    Option.some (match p.read_byte with
      | Option.some (_, p2) => p2
      | Option.none => p)
  | Op.read_int =>
    Option.some (match p.read_int with
      | Option.some (_, p2) => p2
      | Option.none => p)
  | Op.read_str =>
    match p.read_str with
    | ReadStrResult.ok _ p2 => Option.some p2
    | ReadStrResult.none p2 => Option.some p2
    | ReadStrResult.panic => Option.none

/-- Run a sequence of operations on a page. -/
def exec : List Op → Page → Option Page
  | [], p => Option.some p
  | op :: ops, p =>
    match stepOp p op with
    | Option.some p2 => exec ops p2
    | Option.none => Option.none

/-! ## Basic lemmas about the page primitives -/

theorem Page.write_byte_pos (p : Page) (b : Nat) : (p.write_byte b).pos = p.pos + 1 := by
  unfold Page.write_byte
  split <;> rfl

theorem Page.write_bytes_pos (bs : List Nat) (p : Page) :
    (p.write_bytes bs).pos = p.pos + bs.length := by
  induction bs generalizing p with
  | nil => rfl
  | cons b bs ih =>
    show ((p.write_byte b).write_bytes bs).pos = _
    rw [ih, Page.write_byte_pos]
    simp
    omega

theorem Page.write_byte_at_end (p : Page) (b : Nat) (h : p.pos = p.bytebuffer.length) :
    p.write_byte b = { bytebuffer := p.bytebuffer ++ [b], pos := p.pos + 1 } := by
  unfold Page.write_byte
  rw [h]
  simp

theorem Page.write_bytes_at_end (bs : List Nat) (p : Page) (h : p.pos = p.bytebuffer.length) :
    p.write_bytes bs = { bytebuffer := p.bytebuffer ++ bs, pos := p.pos + bs.length } := by
  induction bs generalizing p with
  | nil => simp [Page.write_bytes]
  | cons b bs ih =>
    show ((p.write_byte b).write_bytes bs) = _
    rw [Page.write_byte_at_end p b h]
    rw [ih { bytebuffer := p.bytebuffer ++ [b], pos := p.pos + 1 } (by simp [h])]
    simp
    omega

theorem i32ToBeBytes_length (v : Int) : (i32ToBeBytes v).length = 4 := rfl

/-- Decoding inverts encoding on the i32 range. -/
theorem i32_roundtrip (v : Int) (h1 : -(2 ^ 31) ≤ v) (h2 : v < 2 ^ 31) :
    i32FromBeBytes ((v % (2 ^ 32 : Int)).toNat / 2 ^ 24 % 256)
      ((v % (2 ^ 32 : Int)).toNat / 2 ^ 16 % 256)
      ((v % (2 ^ 32 : Int)).toNat / 2 ^ 8 % 256)
      ((v % (2 ^ 32 : Int)).toNat % 256) = v := by
  unfold i32FromBeBytes
  dsimp only
  split <;> omega

/-! ## Claim C1 -/

/-- Claim C1: for every 32-bit signed integer `v`, on a freshly constructed
page, `write_int v` followed by `flip` followed by `read_int` returns `v`
(with the cursor back at 4 and the buffer holding the 4-byte big-endian
encoding); moreover `write_int v` is exactly `write_bytes` of that 4-byte
big-endian two's-complement encoding, on every page. -/
theorem c1_write_int_roundtrip (capacity : Nat) (v : Int)
    (h1 : -(2 ^ 31) ≤ v) (h2 : v < 2 ^ 31) :
    (((Page.new capacity).write_int v).flip.read_int
      = Option.some (v, { bytebuffer := i32ToBeBytes v, pos := 4 }))
    ∧ (∀ p : Page, p.write_int v = p.write_bytes (i32ToBeBytes v)) := by
  constructor
  · have henc : (Page.new capacity).write_int v
        = { bytebuffer := i32ToBeBytes v, pos := 4 } := by
      unfold Page.write_int
      rw [Page.write_bytes_at_end _ _ rfl]
      simp [Page.new, i32ToBeBytes_length]
    rw [henc]
    unfold Page.flip Page.read_int
    simp only [i32ToBeBytes_length]
    norm_num
    unfold i32ToBeBytes
    simp only [List.getD]
    norm_num [List.getElem?_cons]
    exact i32_roundtrip v h1 h2
  · intro p
    rfl

/-- Witness for C1 at `v = i32::MIN = -2147483648`: the hypotheses hold and
the round trip returns the value, the buffer holding `[0x80, 0, 0, 0]`. -/
theorem c1_witness :
    ((Page.new 10).write_int (-2147483648)).flip.read_int
      = Option.some (-2147483648, { bytebuffer := [128, 0, 0, 0], pos := 4 }) := by
  have h := (c1_write_int_roundtrip 10 (-2147483648) (by norm_num) (by norm_num)).1
  rw [h]
  decide

/-! ## Lemmas about `read_int` and `read_str` -/

/-- Inversion of a successful `read_int`. -/
theorem Page.read_int_some (p : Page) (v : Int) (p1 : Page)
    (h : p.read_int = Option.some (v, p1)) :
    p.pos + 4 ≤ p.bytebuffer.length
    ∧ p1 = { p with pos := p.pos + 4 }
    ∧ v = i32FromBeBytes (p.bytebuffer.getD p.pos 0) (p.bytebuffer.getD (p.pos + 1) 0)
        (p.bytebuffer.getD (p.pos + 2) 0) (p.bytebuffer.getD (p.pos + 3) 0) := by
  unfold Page.read_int at h
  split at h
  · exact absurd h (by simp)
  · injection h with h2
    injection h2 with ha hb
    exact ⟨by omega, hb.symm, ha.symm⟩

/-- The value of a successful `read_int` lies in the i32 range, provided the
buffer holds bytes (values below 256, as the Rust `u8` element type
guarantees). -/
theorem Page.read_int_range (p : Page) (v : Int) (p1 : Page)
    (hwf : ∀ i, p.bytebuffer.getD i 0 < 256)
    (h : p.read_int = Option.some (v, p1)) :
    -(2 ^ 31) ≤ v ∧ v < 2 ^ 31 := by
  obtain ⟨-, -, hv⟩ := p.read_int_some v p1 h
  have h0 := hwf p.pos
  have h1 := hwf (p.pos + 1)
  have h2 := hwf (p.pos + 2)
  have h3 := hwf (p.pos + 3)
  rw [hv]
  unfold i32FromBeBytes
  dsimp only
  split <;> omega

/-- `read_str` when the length prefix is readable but fewer bytes than the
(nonnegative) decoded length remain: the absent result, cursor advanced only
past the prefix. -/
theorem Page.read_str_short (p : Page) (v : Int) (p1 : Page)
    (hwf : ∀ i, p.bytebuffer.getD i 0 < 256)
    (hbound : p.bytebuffer.length + 2 ^ 31 < USIZE)
    (hread : p.read_int = Option.some (v, p1))
    (hlt : (p1.bytebuffer.length : Int) - (p1.pos : Int) < v) :
    p.read_str = ReadStrResult.none p1 := by
  obtain ⟨hle, hp1, -⟩ := p.read_int_some v p1 hread
  obtain ⟨hlo, hhi⟩ := p.read_int_range v p1 hwf hread
  have hbuf : p1.bytebuffer = p.bytebuffer := by rw [hp1]
  have hpos : p1.pos = p.pos + 4 := by rw [hp1]
  have hvpos : 0 < v := by
    rw [hbuf, hpos] at hlt
    omega
  have hmod : v % (USIZE : Int) = v := by
    unfold USIZE
    omega
  unfold Page.read_str
  rw [hread]
  dsimp only
  rw [hmod]
  have hnopanic : ¬ (p1.pos + v.toNat ≥ USIZE) := by
    unfold USIZE at *
    omega
  rw [if_neg hnopanic, if_pos (by omega)]

/-- `read_str` when the decoded length's bytes are available but are not
valid UTF-8: the same absent ("no value") result, cursor advanced past the
prefix and the bytes. -/
theorem Page.read_str_badUtf8 (p : Page) (v : Int) (p1 : Page)
    (hwf : ∀ i, p.bytebuffer.getD i 0 < 256)
    (hbound : p.bytebuffer.length + 2 ^ 31 < USIZE)
    (hread : p.read_int = Option.some (v, p1))
    (hv : 0 ≤ v)
    (havail : p1.pos + v.toNat ≤ p1.bytebuffer.length)
    (hbad : validUtf8 ((p1.bytebuffer.drop p1.pos).take v.toNat) = false) :
    p.read_str = ReadStrResult.none { p1 with pos := p1.pos + v.toNat } := by
  obtain ⟨hle, hp1, -⟩ := p.read_int_some v p1 hread
  obtain ⟨hlo, hhi⟩ := p.read_int_range v p1 hwf hread
  have hbuf : p1.bytebuffer = p.bytebuffer := by rw [hp1]
  have hmod : v % (USIZE : Int) = v := by
    unfold USIZE
    omega
  unfold Page.read_str
  rw [hread]
  dsimp only
  rw [hmod]
  have hnopanic : ¬ (p1.pos + v.toNat ≥ USIZE) := by
    rw [hbuf] at havail
    unfold USIZE at *
    omega
  rw [if_neg hnopanic, if_neg (by omega), if_neg (by rw [hbad]; simp)]

/-- Inversion of a successful `read_str`: the returned bytes are the slice
after the prefix, and the cursor advanced by `4 +` their count. -/
theorem Page.read_str_ok (p : Page) (s : List Nat) (p2 : Page)
    (h : p.read_str = ReadStrResult.ok s p2) :
    ∃ v p1, p.read_int = Option.some (v, p1)
      ∧ s = (p1.bytebuffer.drop p1.pos).take ((v % (USIZE : Int)).toNat)
      ∧ s.length = (v % (USIZE : Int)).toNat
      ∧ p2 = { p1 with pos := p1.pos + (v % (USIZE : Int)).toNat }
      ∧ p2.pos = p.pos + 4 + s.length := by
  unfold Page.read_str at h
  match hr : p.read_int with
  | Option.none =>
    rw [hr] at h
    exact absurd h (by simp)
  | Option.some (v, p1) =>
    rw [hr] at h
    dsimp only at h
    obtain ⟨hle, hp1, -⟩ := p.read_int_some v p1 hr
    split at h
    · exact absurd h (by simp)
    · split at h
      · exact absurd h (by simp)
      · rename_i hpanic hav
        split at h
        · injection h with h1 h2
          refine ⟨v, p1, rfl, h1.symm, ?_, h2.symm, ?_⟩
          · rw [← h1]
            have hlen : (p1.bytebuffer.drop p1.pos).length
                = p1.bytebuffer.length - p1.pos := by simp
            rw [List.length_take, hlen]
            omega
          · rw [← h2]
            have hs : s.length = (v % (USIZE : Int)).toNat := by
              rw [← h1]
              have hlen : (p1.bytebuffer.drop p1.pos).length
                  = p1.bytebuffer.length - p1.pos := by simp
              rw [List.length_take, hlen]
              omega
            have hpos : p1.pos = p.pos + 4 := by rw [hp1]
            rw [hs, hpos]
        · exact absurd h (by simp)

/-- An all-bounded byte list is pointwise below the bound under `getD 0`. -/
theorem getD_all_lt (c : Nat) (hc : 0 < c) :
    ∀ l : List Nat, (∀ b ∈ l, b < c) → ∀ i, l.getD i 0 < c := by
  intro l
  induction l with
  | nil =>
    intro h i
    simpa [List.getD] using hc
  | cons b bs ih =>
    intro h i
    match i with
    | 0 => simpa [List.getD_cons_zero] using h b (by simp)
    | i + 1 =>
      have := ih (fun x hx => h x (by simp [hx])) i
      simpa [List.getD_cons_succ] using this

/-! ## Claim C4 -/

/-- Claim C4 (evidence of the code bug): the page reached by
`write_int (-1); flip()` on a fresh page holds `[255, 255, 255, 255]` with
the cursor at 0, and `read_str` on it panics instead of returning the
absent value: the length prefix decodes to `-1`, the cast `as usize` turns
it into `2^64 - 1`, and `pos + len` (`4 + (2^64 - 1)`) leaves `usize` —
an overflow panic in debug builds, an inverted slice-bounds panic
(`buffer[4..3]`) in release builds. -/
theorem c4_read_str_panics :
    ((Page.new 8).write_int (-1)).flip = { bytebuffer := [255, 255, 255, 255], pos := 0 }
    ∧ ({ bytebuffer := [255, 255, 255, 255], pos := 0 } : Page).read_str
        = ReadStrResult.panic := by
  decide

/-! ## Claim C6 -/

/-- Claim C6 counterexample: on a page whose length prefix (1) is readable
and whose single payload byte `255` is not valid UTF-8, `read_str` returns
the very same `ReadStrResult.none` ("no value", Rust's `Option::None`) that
the insufficient-bytes case produces (second conjunct, length prefix 9 with
no payload); the source's `Option<String>` return type carries no distinct
"invalid encoding" error. -/
theorem c6_counterexample :
    ({ bytebuffer := [0, 0, 0, 1, 255], pos := 0 } : Page).read_str
        = ReadStrResult.none { bytebuffer := [0, 0, 0, 1, 255], pos := 5 }
    ∧ ({ bytebuffer := [0, 0, 0, 9], pos := 0 } : Page).read_str
        = ReadStrResult.none { bytebuffer := [0, 0, 0, 9], pos := 4 } := by
  decide

/-- Claim C6 as amended: when `read_str` obtains a (nonnegative) length
whose bytes are available but not valid UTF-8, it returns the same absent
("no value") outcome as the insufficient-bytes case — `from_utf8`'s error is
discarded by `.ok()` — with the cursor advanced past the prefix and the
bytes; no distinct "invalid encoding" error is observable. -/
theorem c6_invalid_utf8_is_no_value (p : Page) (v : Int) (p1 : Page)
    (hwf : ∀ i, p.bytebuffer.getD i 0 < 256)
    (hbound : p.bytebuffer.length + 2 ^ 31 < USIZE)
    (hread : p.read_int = Option.some (v, p1))
    (hv : 0 ≤ v)
    (havail : p1.pos + v.toNat ≤ p1.bytebuffer.length)
    (hbad : validUtf8 ((p1.bytebuffer.drop p1.pos).take v.toNat) = false) :
    p.read_str = ReadStrResult.none { p1 with pos := p1.pos + v.toNat } :=
  p.read_str_badUtf8 v p1 hwf hbound hread hv havail hbad

/-- Witness for the amended C6 on the page `[0, 0, 0, 2, 104, 255]`
(length 2, payload `[104, 255]`, not UTF-8). -/
theorem c6_witness :
    ({ bytebuffer := [0, 0, 0, 2, 104, 255], pos := 0 } : Page).read_str
      = ReadStrResult.none { bytebuffer := [0, 0, 0, 2, 104, 255], pos := 6 } := by
  have h := c6_invalid_utf8_is_no_value { bytebuffer := [0, 0, 0, 2, 104, 255], pos := 0 }
    2 { bytebuffer := [0, 0, 0, 2, 104, 255], pos := 4 }
    (getD_all_lt 256 (by norm_num) _ (by decide)) (by decide) (by decide)
    (by decide) (by decide) (by decide)
  simpa using h

/-! ## Claim C9 -/

/-- Claim C9: a failing `read_str` is not atomic on the page state.  When
the 4-byte length prefix is readable but fewer than the decoded number of
bytes remain, the absent result comes back with the cursor advanced by 4
past the pre-call position; when the bytes are present but not valid UTF-8,
the absent result comes back with the cursor advanced by 4 plus the decoded
length.  (The two bound hypotheses record that buffer bytes are `u8` values
and that a real buffer is far shorter than `usize::MAX`.) -/
theorem c9_read_str_not_atomic (p : Page) (v : Int) (p1 : Page)
    (hwf : ∀ i, p.bytebuffer.getD i 0 < 256)
    (hbound : p.bytebuffer.length + 2 ^ 31 < USIZE)
    (hread : p.read_int = Option.some (v, p1)) :
    ((p1.bytebuffer.length : Int) - (p1.pos : Int) < v →
        p.read_str = ReadStrResult.none p1 ∧ p1.pos = p.pos + 4)
    ∧ (0 ≤ v → p1.pos + v.toNat ≤ p1.bytebuffer.length →
        validUtf8 ((p1.bytebuffer.drop p1.pos).take v.toNat) = false →
        p.read_str = ReadStrResult.none { p1 with pos := p1.pos + v.toNat }
        ∧ p1.pos + v.toNat = (p.pos + 4) + v.toNat) := by
  obtain ⟨-, hp1, -⟩ := p.read_int_some v p1 hread
  constructor
  · intro hlt
    exact ⟨p.read_str_short v p1 hwf hbound hread hlt, by rw [hp1]⟩
  · intro hv havail hbad
    exact ⟨p.read_str_badUtf8 v p1 hwf hbound hread hv havail hbad, by rw [hp1]⟩

/-- Witness for C9 on the page `[0, 0, 0, 9]`: the prefix decodes to 9 but
no payload bytes remain, so `read_str` returns the absent result with the
cursor moved from 0 to 4. -/
theorem c9_witness :
    ({ bytebuffer := [0, 0, 0, 9], pos := 0 } : Page).read_str
      = ReadStrResult.none { bytebuffer := [0, 0, 0, 9], pos := 4 }
    ∧ ({ bytebuffer := [0, 0, 0, 9], pos := 4 } : Page).pos
      = ({ bytebuffer := [0, 0, 0, 9], pos := 0 } : Page).pos + 4 := by
  have h := (c9_read_str_not_atomic { bytebuffer := [0, 0, 0, 9], pos := 0 }
    9 { bytebuffer := [0, 0, 0, 9], pos := 4 }
    (getD_all_lt 256 (by norm_num) _ (by decide)) (by decide) (by decide)).1 (by decide)
  simpa using h

/-! ## Claim C8 -/

/-- The cursor invariant: the position never leaves `[0, logical length]`. -/
def Page.Inv (p : Page) : Prop :=
  p.pos ≤ p.bytebuffer.length

theorem Page.write_byte_inv (p : Page) (b : Nat) (h : p.Inv) : (p.write_byte b).Inv := by
  unfold Page.Inv Page.write_byte at *
  split
  · simpa using by omega
  · simp
    omega

theorem Page.write_bytes_inv (bs : List Nat) (p : Page) (h : p.Inv) :
    (p.write_bytes bs).Inv := by
  induction bs generalizing p with
  | nil => exact h
  | cons b bs ih => exact ih (p.write_byte b) (p.write_byte_inv b h)

theorem Page.read_byte_some (p : Page) (b : Nat) (p1 : Page)
    (h : p.read_byte = Option.some (b, p1)) :
    p.pos < p.bytebuffer.length ∧ p1 = { p with pos := p.pos + 1 } := by
  unfold Page.read_byte at h
  split at h
  · exact absurd h (by simp)
  · injection h with h2
    injection h2 with ha hb
    exact ⟨by omega, hb.symm⟩

/-- Any page a `read_str` call hands back (inside `ok` or `none`) satisfies
the invariant whenever the argument page did. -/
theorem Page.read_str_inv (p : Page) (h : p.Inv) :
    (∀ s p2, p.read_str = ReadStrResult.ok s p2 → p2.Inv)
    ∧ (∀ p2, p.read_str = ReadStrResult.none p2 → p2.Inv) := by
  unfold Page.read_str
  match hr : p.read_int with
  | Option.none =>
    refine ⟨fun s p2 hh => absurd hh (by simp), fun p2 hh => ?_⟩
    injection hh with h2
    exact h2 ▸ h
  | Option.some (v, p1) =>
    obtain ⟨hle, hp1, -⟩ := p.read_int_some v p1 hr
    have hpos : p1.pos = p.pos + 4 := by rw [hp1]
    have hbuf : p1.bytebuffer = p.bytebuffer := by rw [hp1]
    dsimp only
    constructor
    · intro s p2 hh
      split at hh
      · exact absurd hh (by simp)
      · split at hh
        · exact absurd hh (by simp)
        · split at hh
          · injection hh with h1 h2
            rename_i hav _
            rw [← h2]
            unfold Page.Inv
            simp only [hbuf] at *
            omega
          · exact absurd hh (by simp)
    · intro p2 hh
      split at hh
      · exact absurd hh (by simp)
      · split at hh
        · injection hh with h2
          rw [← h2]
          unfold Page.Inv
          simp only [hbuf] at *
          omega
        · split at hh
          · exact absurd hh (by simp)
          · injection hh with h2
            rename_i hav _
            rw [← h2]
            unfold Page.Inv
            simp only [hbuf] at *
            omega

theorem stepOp_inv (p : Page) (op : Op) (p2 : Page) (h : p.Inv)
    (hs : stepOp p op = Option.some p2) : p2.Inv := by
  cases op with
  | write_byte b =>
    injection hs with h2
    exact h2 ▸ p.write_byte_inv b h
  | write_bytes bs =>
    injection hs with h2
    exact h2 ▸ p.write_bytes_inv bs h
  | write_int v =>
    injection hs with h2
    exact h2 ▸ p.write_bytes_inv (i32ToBeBytes v) h
  | write_str s =>
    injection hs with h2
    exact h2 ▸ Page.write_bytes_inv s _ (p.write_bytes_inv (i32ToBeBytes (i32OfNat s.length)) h)
  | flip =>
    injection hs with h2
    rw [← h2]
    unfold Page.Inv Page.flip
    simp
  | read_byte =>
    injection hs with h2
    rw [← h2]
    match hr : p.read_byte with
    | Option.none => simpa using h
    | Option.some (b, p1) =>
      obtain ⟨hlt, hp1⟩ := p.read_byte_some b p1 hr
      dsimp only
      rw [hp1]
      exact hlt
  | read_int =>
    injection hs with h2
    rw [← h2]
    match hr : p.read_int with
    | Option.none => simpa using h
    | Option.some (v, p1) =>
      obtain ⟨hle, hp1, -⟩ := p.read_int_some v p1 hr
      dsimp only
      rw [hp1]
      exact hle
  | read_str =>
    unfold stepOp at hs
    obtain ⟨hok, hnone⟩ := p.read_str_inv h
    match hr : p.read_str with
    | ReadStrResult.ok s p3 =>
      rw [hr] at hs
      injection hs with h2
      exact h2 ▸ hok s p3 hr
    | ReadStrResult.none p3 =>
      rw [hr] at hs
      injection hs with h2
      exact h2 ▸ hnone p3 hr
    | ReadStrResult.panic =>
      rw [hr] at hs
      exact absurd hs (by simp)

theorem exec_inv (ops : List Op) (p : Page) (p2 : Page) (h : p.Inv)
    (hs : exec ops p = Option.some p2) : p2.Inv := by
  induction ops generalizing p with
  | nil =>
    injection hs with h2
    exact h2 ▸ h
  | cons op ops ih =>
    unfold exec at hs
    match hstep : stepOp p op with
    | Option.none => rw [hstep] at hs; exact absurd hs (by simp)
    | Option.some p1 =>
      rw [hstep] at hs
      exact ih p1 (stepOp_inv p op p1 h hstep) hs

/-- Claim C8: starting from `new(capacity)`, along every sequence of page
operations the cursor stays within `[0, logical length]`; and every
write/read primitive that returns advances the cursor by exactly the number
of bytes it wrote or consumed (1 for bytes, the list length for raw byte
runs, 4 for integers, `4 + payload length` for strings). -/
theorem c8_cursor_invariant (capacity : Nat) (ops : List Op) (p : Page)
    (hexec : exec ops (Page.new capacity) = Option.some p) :
    p.pos ≤ p.bytebuffer.length
    ∧ (∀ (q : Page) (b : Nat), (q.write_byte b).pos = q.pos + 1)
    ∧ (∀ (q : Page) (bs : List Nat), (q.write_bytes bs).pos = q.pos + bs.length)
    ∧ (∀ (q : Page) (v : Int), (q.write_int v).pos = q.pos + 4)
    ∧ (∀ (q : Page) (s : List Nat), (q.write_str s).pos = q.pos + (4 + s.length))
    ∧ (∀ (q q2 : Page) (b : Nat), q.read_byte = Option.some (b, q2) → q2.pos = q.pos + 1)
    ∧ (∀ (q q2 : Page) (v : Int), q.read_int = Option.some (v, q2) → q2.pos = q.pos + 4)
    ∧ (∀ (q q2 : Page) (s : List Nat), q.read_str = ReadStrResult.ok s q2 →
        q2.pos = q.pos + (4 + s.length)) := by
  refine ⟨exec_inv ops (Page.new capacity) p (by simp [Page.new, Page.Inv]) hexec,
    Page.write_byte_pos, fun q bs => Page.write_bytes_pos bs q, ?_, ?_, ?_, ?_, ?_⟩
  · intro q v
    have := Page.write_bytes_pos (i32ToBeBytes v) q
    simpa [Page.write_int, i32ToBeBytes_length] using this
  · intro q s
    unfold Page.write_str
    rw [Page.write_bytes_pos]
    have := Page.write_bytes_pos (i32ToBeBytes (i32OfNat s.length)) q
    simp only [Page.write_int]
    rw [this, i32ToBeBytes_length]
    omega
  · intro q q2 b h
    obtain ⟨-, hq2⟩ := q.read_byte_some b q2 h
    rw [hq2]
  · intro q q2 v h
    obtain ⟨-, hq2, -⟩ := q.read_int_some v q2 h
    rw [hq2]
  · intro q q2 s h
    obtain ⟨v, p1, -, -, -, -, hpos⟩ := q.read_str_ok s q2 h
    omega

/-- Witness for C8: the sequence `write_int 7; flip; read_int` from a fresh
page ends in a state whose cursor (4) is within the logical length (4). -/
theorem c8_witness :
    exec [Op.write_int 7, Op.flip, Op.read_int] (Page.new 8)
        = Option.some { bytebuffer := [0, 0, 0, 7], pos := 4 }
    ∧ ({ bytebuffer := [0, 0, 0, 7], pos := 4 } : Page).pos
        ≤ ({ bytebuffer := [0, 0, 0, 7], pos := 4 } : Page).bytebuffer.length := by
  refine ⟨by decide, ?_⟩
  exact (c8_cursor_invariant 8 [Op.write_int 7, Op.flip, Op.read_int] _ (by decide)).1

/-! ## Claim C3 -/

/-- Claim C3: `FileManager::read` fails whenever the named file does not
exist (conjunct 1), whenever the block's offset is at or beyond end-of-file
(conjunct 2), and whenever fewer than `block_size` bytes are available at
the offset (conjunct 3); conversely a success implies the file exists and
holds a full block at the offset, so zero-filled or partial data is never
presented as valid (conjunct 4).  Hypotheses: the manager's block size is
positive (guaranteed at construction) and the `u64` offset product does not
overflow. -/
theorem c3_read_failure_conditions (fm : FileManager) (fs : FS) (block : BlockId) (page : Page)
    (hbs : 0 < fm.block_size) (hoff : fm.block_size * block.number < USIZE) :
    (fs block.filename = Option.none →
        fm.read fs block page = Except.error IoErr.notFound)
    ∧ (∀ file, fs block.filename = Option.some file →
        file.size ≤ fm.block_size * block.number →
        fm.read fs block page = Except.error IoErr.unexpectedEof)
    ∧ (∀ file, fs block.filename = Option.some file →
        file.size - fm.block_size * block.number < fm.block_size →
        fm.read fs block page = Except.error IoErr.unexpectedEof)
    ∧ (∀ result, fm.read fs block page = Except.ok result →
        ∃ file, fs block.filename = Option.some file
          ∧ fm.block_size * block.number + fm.block_size ≤ file.size) := by
  have hmod : fm.block_size * block.number % USIZE = fm.block_size * block.number :=
    Nat.mod_eq_of_lt hoff
  refine ⟨?_, ?_, ?_, ?_⟩
  · intro h
    unfold FileManager.read
    rw [h]
  · intro file hf hle
    unfold FileManager.read
    rw [hf]
    dsimp only
    rw [hmod, if_pos (by omega)]
  · intro file hf hlt
    unfold FileManager.read
    rw [hf]
    dsimp only
    rw [hmod, if_pos (by omega)]
  · intro result h
    unfold FileManager.read at h
    match hf : fs block.filename with
    | Option.none =>
      rw [hf] at h
      exact absurd h (by simp)
    | Option.some file =>
      rw [hf] at h
      dsimp only at h
      rw [hmod] at h
      split at h
      · exact absurd h (by simp)
      · rename_i hn
        refine ⟨file, rfl, ?_⟩
        omega

/-- Witness for C3: reading any block of a never-created file fails with the
missing-file error. -/
theorem c3_witness :
    (FileManager.new "db" 4).read (fun _ => Option.none) (BlockId.new "g" 0) (Page.new 4)
      = Except.error IoErr.notFound :=
  (c3_read_failure_conditions (FileManager.new "db" 4) (fun _ => Option.none)
    (BlockId.new "g" 0) (Page.new 4) (by decide) (by decide)).1 rfl

/-! ## Claim C5 -/

/-- File system for the C5 counterexample: one file `f` holding the two
bytes `[9, 8]`. -/
def fsC5 : FS :=
  fun g => if g = "f" then Option.some { size := 2, data := fun i => if i = 0 then 9 else 8 }
    else Option.none

/-- Claim C5 counterexample: with block size 2, reading block `("f", 0)`
(whose content is `[9, 8]`) into the page `{ bytebuffer := [7], pos := 1 }`
(reachable by one `write_byte 7` from fresh) succeeds and leaves the page
holding `[7, 9, 8]` — the prior byte survives, so the page's content is not
replaced by the block's two bytes. -/
theorem c5_counterexample :
    (FileManager.new "db" 2).read fsC5 (BlockId.new "f" 0) { bytebuffer := [7], pos := 1 }
        = Except.ok { bytebuffer := [7, 9, 8], pos := 3 }
    ∧ ([7, 9, 8] : List Nat) ≠ [9, 8] := by
  exact ⟨rfl, by decide⟩

/-- Claim C5 as amended: a successful `read` does not replace the page's
content; it feeds the block's `block_size` bytes to `write_bytes` at the
page's current cursor (overwrite-then-append), advancing the cursor by
exactly `block_size`.  Only when the page is empty with cursor 0 (e.g.
freshly constructed) does the page end up holding exactly the block's bytes
with the cursor at the logical end. -/
theorem c5_amended (fm : FileManager) (fs : FS) (block : BlockId) (page result : Page)
    (h : fm.read fs block page = Except.ok result) :
    (∃ file, fs block.filename = Option.some file
      ∧ result = page.write_bytes ((List.range fm.block_size).map
          fun i => file.data (fm.block_size * block.number % USIZE + i)))
    ∧ result.pos = page.pos + fm.block_size
    ∧ (page.bytebuffer = [] ∧ page.pos = 0 →
        ∃ file, fs block.filename = Option.some file
          ∧ result.bytebuffer = (List.range fm.block_size).map
              (fun i => file.data (fm.block_size * block.number % USIZE + i))
          ∧ result.pos = fm.block_size) := by
  unfold FileManager.read at h
  match hf : fs block.filename with
  | Option.none =>
    rw [hf] at h
    exact absurd h (by simp)
  | Option.some file =>
    rw [hf] at h
    dsimp only at h
    split at h
    · exact absurd h (by simp)
    · injection h with h2
      refine ⟨⟨file, rfl, h2.symm⟩, ?_, ?_⟩
      · rw [← h2, Page.write_bytes_pos]
        simp
      · intro ⟨hb, hp⟩
        refine ⟨file, rfl, ?_, ?_⟩
        · rw [← h2, Page.write_bytes_at_end _ _ (by simp [hb, hp])]
          rw [hb]
          rfl
        · rw [← h2, Page.write_bytes_at_end _ _ (by simp [hb, hp])]
          simp [hp]

/-- Witness for the amended C5: reading the one-byte block `("f", 0)`
(content `[42]`) into a fresh page advances the cursor from 0 by the block
size. -/
theorem c5_witness :
    ({ bytebuffer := [42], pos := 1 } : Page).pos
      = (Page.new 1).pos + (FileManager.new "db" 1).block_size :=
  (c5_amended (FileManager.new "db" 1)
    (fun g => if g = "f" then Option.some { size := 1, data := fun _ => 42 } else Option.none)
    (BlockId.new "f" 0) (Page.new 1) { bytebuffer := [42], pos := 1 } rfl).2.1

/-! ## Claim C7 -/

/-- Whether an `Except` value is a success. -/
def isOkE {ε α : Type} : Except ε α → Bool
  | Except.ok _ => true
  | Except.error _ => false

/-- File system for the C7 counterexample: one file `f` holding one zero
byte. -/
def fsC7 : FS :=
  fun g => if g = "f" then Option.some { size := 1, data := fun _ => 0 } else Option.none

/-- Claim C7 counterexample: the page holds one byte, yet when the
underlying `file.write` call reports 0 bytes written (a truncated write,
e.g. disk full), `FileManager::write` still succeeds — the code discards
the count returned by `write`, so truncation is not detected and no error
is returned. -/
theorem c7_counterexample :
    isOkE ((FileManager.new "db" 1).write fsC7 (BlockId.new "f" 0)
        { bytebuffer := [5], pos := 1 } 0) = true
    ∧ (0 : Nat) < ({ bytebuffer := [5], pos := 1 } : Page).bytebuffer.length := by
  exact ⟨rfl, by decide⟩

/-- Claim C7 as amended: `write` places the page's logical content at offset
`block_size * block.number` and fails exactly when the file is absent; it
never creates a file.  A truncated underlying write is NOT detected: the
call succeeds for every reported count `n`, having placed only the first
`min n length` bytes (the full content when `n` covers it). -/
theorem c7_amended (fm : FileManager) (fs : FS) (block : BlockId) (page : Page) (n : Nat) :
    (fm.write fs block page n = Except.error IoErr.notFound ↔ fs block.filename = Option.none)
    ∧ (∀ fs2, fm.write fs block page n = Except.ok fs2 →
        ∀ g, fs g = Option.none → fs2 g = Option.none)
    ∧ (∀ file, fs block.filename = Option.some file →
        ∃ file2, fm.write fs block page n = Except.ok (updateFS fs block.filename file2)
          ∧ (∀ i, i < min n page.bytebuffer.length →
              file2.data (fm.block_size * block.number % USIZE + i)
                = page.bytebuffer.getD i 0)
          ∧ (page.bytebuffer.length ≤ n →
              ∀ i, i < page.bytebuffer.length →
                file2.data (fm.block_size * block.number % USIZE + i)
                  = page.bytebuffer.getD i 0)) := by
  refine ⟨?_, ?_, ?_⟩
  · constructor
    · intro h
      match hf : fs block.filename with
      | Option.none => rfl
      | Option.some file =>
        unfold FileManager.write at h
        rw [hf] at h
        exact absurd h (by simp)
    · intro h
      unfold FileManager.write
      rw [h]
  · intro fs2 h g hg
    unfold FileManager.write at h
    match hf : fs block.filename with
    | Option.none =>
      rw [hf] at h
      exact absurd h (by simp)
    | Option.some file =>
      rw [hf] at h
      dsimp only at h
      injection h with h2
      rw [← h2]
      unfold updateFS
      have hne : g ≠ block.filename := by
        intro he
        rw [he, hf] at hg
        exact absurd hg (by simp)
      rw [if_neg hne]
      exact hg
  · intro file hf
    have hw : fm.write fs block page n = Except.ok (updateFS fs block.filename
        (File.mk (max file.size (fm.block_size * block.number % USIZE + min n page.bytebuffer.length))
          (fun i => if fm.block_size * block.number % USIZE ≤ i ∧ i < fm.block_size * block.number % USIZE + min n page.bytebuffer.length then page.bytebuffer.getD (i - fm.block_size * block.number % USIZE) 0 else if i < file.size then file.data i else 0))) := by
      unfold FileManager.write
      rw [hf]
    refine ⟨_, hw, ?_, ?_⟩
    · intro i hi
      dsimp only
      rw [if_pos ⟨by omega, by omega⟩]
      congr 1
      omega
    · intro hn i hi
      dsimp only
      rw [if_pos ⟨by omega, by omega⟩]
      congr 1
      omega

/-- Witness for the amended C7: writing to a block of a never-created file
fails with the missing-file error (the call creates nothing). -/
theorem c7_witness :
    (FileManager.new "db" 1).write (fun _ => Option.none) (BlockId.new "f" 0) (Page.new 1) 0
      = Except.error IoErr.notFound :=
  (c7_amended (FileManager.new "db" 1) (fun _ => Option.none) (BlockId.new "f" 0)
    (Page.new 1) 0).1.mpr rfl

/-! ## Claim C2 -/

/-- The current length of a file (0 when absent, as `append`'s freshly
created file is empty). -/
def fileSize (fs : FS) (f : String) : Nat :=
  ((fs f).getD File.empty).size

/-- File system for the C2 counterexample: one file `f` of length `2^32`
bytes. -/
def fsC2 : FS :=
  fun g => if g = "f" then Option.some { size := 2 ^ 32, data := fun _ => 0 } else Option.none

/-- Claim C2 counterexample: with block size 1 and a file of length `2^32`,
`floor(current_file_length / block_size) = 2^32`, but `append` stores the
quotient through the cast `as u32` and returns block number
`2^32 % 2^32 = 0`, not the claimed floor. -/
theorem c2_counterexample :
    ((FileManager.new "db" 1).append fsC2 "f").1.number = 0
    ∧ (2 ^ 32 : Nat) / 1 ≠ 0 := by
  exact ⟨rfl, by decide⟩

/-- One `append` sets the file's length to the old length plus the block
size, modulo `2^64`. -/
theorem append_size (fm : FileManager) (fs : FS) (f : String) :
    fileSize (fm.append fs f).2 f = (fileSize fs f + fm.block_size) % USIZE := by
  unfold FileManager.append updateFS fileSize
  simp

/-- Claim C2 as amended: `append` creates the file when absent, returns
block number `floor(len / block_size) mod 2^32` (the `u32` cast truncates
the quotient), extends the length by exactly `block_size`, and names the
file in the returned identifier; in particular the first append on an
absent file returns block number 0 leaving length `block_size`, and a
second append returns 1 leaving `2 * block_size`.  Hypotheses: positive
block size (guaranteed at construction) and no `u64` length overflow. -/
theorem c2_amended (fm : FileManager) (fs : FS) (f : String)
    (hbs : 0 < fm.block_size)
    (hlen : fileSize fs f + 2 * fm.block_size < USIZE) :
    (fm.append fs f).1.filename = f
    ∧ (fm.append fs f).1.number = fileSize fs f / fm.block_size % 2 ^ 32
    ∧ ((fm.append fs f).2 f).isSome = true
    ∧ fileSize (fm.append fs f).2 f = fileSize fs f + fm.block_size
    ∧ (fs f = Option.none →
        (fm.append fs f).1.number = 0
        ∧ fileSize (fm.append fs f).2 f = fm.block_size
        ∧ (fm.append (fm.append fs f).2 f).1.number = 1
        ∧ fileSize (fm.append (fm.append fs f).2 f).2 f = 2 * fm.block_size) := by
  have hupd : ((fm.append fs f).2 f).isSome = true := by
    unfold FileManager.append updateFS
    simp
  have hsize : fileSize (fm.append fs f).2 f = fileSize fs f + fm.block_size := by
    rw [append_size]
    exact Nat.mod_eq_of_lt (by omega)
  refine ⟨rfl, rfl, hupd, hsize, ?_⟩
  intro habs
  have h0 : fileSize fs f = 0 := by
    unfold fileSize
    rw [habs]
    rfl
  refine ⟨?_, ?_, ?_, ?_⟩
  · show fileSize fs f / fm.block_size % 2 ^ 32 = 0
    rw [h0]
    simp
  · rw [hsize, h0]
    omega
  · show fileSize (fm.append fs f).2 f / fm.block_size % 2 ^ 32 = 1
    rw [hsize, h0]
    rw [Nat.zero_add, Nat.div_self hbs]
    rfl
  · rw [append_size, hsize, h0]
    rw [Nat.mod_eq_of_lt (by omega)]
    omega

/-- Witness for the amended C2: the first append on the absent file `f`
returns block number 0 and leaves length equal to the block size (1); the
general conjuncts also yield that a second append returns block number 1. -/
theorem c2_witness :
    ((FileManager.new "db" 1).append (fun _ => Option.none) "f").1.number = 0
    ∧ fileSize ((FileManager.new "db" 1).append (fun _ => Option.none) "f").2 "f" = 1
    ∧ ((FileManager.new "db" 1).append
        ((FileManager.new "db" 1).append (fun _ => Option.none) "f").2 "f").1.number = 1 := by
  have h := (c2_amended (FileManager.new "db" 1) (fun _ => Option.none) "f"
    (by decide) (by decide)).2.2.2.2 rfl
  exact ⟨h.1, h.2.1, h.2.2.1⟩

end Db
